import Mathlib

/-!
Verification of the pixel transform and resampling engine of EvilLockGDI
(`EvilockGDI/PixelCanvas.hpp`, together with the duplicated fisheye pass in
`EvilockGDI/LayeredTextout.hpp`), shallowly embedded in Lean.

Modelling conventions:
* `float` arithmetic is embedded as exact rational arithmetic (`ℚ`); the
  float literals `1e-6f`, `1e-8f`, `1e-5f`, `0.5f`, `1.5f` become the exact
  rationals they denote.
* C `static_cast<int>(f)` truncates toward zero; it is modelled by `itrunc`.
  `static_cast<BYTE>(f)` (applied by the source only to values in `[0,255]`)
  is modelled by `toByte`.
* pixel memory is modelled as a total function `ℤ → Pixel32` standing for the
  linear array; `ptr[i]` becomes application at `i`.  Null-pointer early
  returns are dropped (buffers are values, never null).
* imperative loops that write each destination cell at most once are modelled
  by the function giving the final contents of each cell.
-/

namespace EvilockGDI

/-- 32bpp BGRA pixel (`Pixel32` in PixelCanvas.hpp).  The union member `rgb`
is determined by the four channel bytes, so only the channels are modelled. -/
structure Pixel32 where
  b : ℕ
  g : ℕ
  r : ℕ
  a : ℕ
deriving DecidableEq

/-- The opaque black background `0xFF000000u` used by the perspective and
affine render-to-buffer paths (b = 0, g = 0, r = 0, a = 255). -/
def bgPixel : Pixel32 := ⟨0, 0, 0, 255⟩

/-- `std::clamp` on `int` (the callers guarantee `lo ≤ hi`). -/
def clampZ (v lo hi : ℤ) : ℤ := max lo (min v hi)

/-- `std::clamp` on `float` (the callers guarantee `lo ≤ hi`). -/
def clampQ (v lo hi : ℚ) : ℚ := max lo (min v hi)

/-- C cast of a float to `int`: truncation toward zero. -/
def itrunc (q : ℚ) : ℤ := if q < 0 then -⌊-q⌋ else ⌊q⌋

/-- C cast of a float to `BYTE`; the source only applies it to values in
`[0, 255]`, where it truncates toward zero. -/
def toByte (q : ℚ) : ℕ := (itrunc q).toNat

/-- The `Lerp` lambda of `SampleBilinear_`: `a + (b - a) * t`. -/
def Lerp (a b t : ℚ) : ℚ := a + (b - a) * t

/-- `PixelCanvas::SampleNearest_` (PixelCanvas.hpp:889-895): clamp the integer
coordinates into `[0,srcW-1] × [0,srcH-1]` and read the pixel. -/
def SampleNearest_ (src : ℤ → Pixel32) (srcW srcH : ℤ) (sx sy : ℤ) : Pixel32 :=
  let sx := clampZ sx 0 (srcW - 1)
  let sy := clampZ sy 0 (srcH - 1)
  src (sy * srcW + sx)

/-- `PixelCanvas::SampleBilinear_` (PixelCanvas.hpp:897-925): clamp the float
coordinates, take the four surrounding pixels and lerp each channel, casting
the result to a byte (truncation). -/
def SampleBilinear_ (src : ℤ → Pixel32) (srcW srcH : ℤ) (fx fy : ℚ) : Pixel32 :=
  if srcW ≤ 0 ∨ srcH ≤ 0 then ⟨0, 0, 0, 0⟩
  else
    let fx := clampQ fx 0 ((srcW : ℚ) - 1)
    let fy := clampQ fy 0 ((srcH : ℚ) - 1)
    let x0 : ℤ := itrunc fx
    let y0 : ℤ := itrunc fy
    let x1 : ℤ := min (x0 + 1) (srcW - 1)
    let y1 : ℤ := min (y0 + 1) (srcH - 1)
    let tx : ℚ := fx - (x0 : ℚ)
    let ty : ℚ := fy - (y0 : ℚ)
    let p00 := src (y0 * srcW + x0)
    let p10 := src (y0 * srcW + x1)
    let p01 := src (y1 * srcW + x0)
    let p11 := src (y1 * srcW + x1)
    { b := toByte (Lerp (Lerp (p00.b : ℚ) (p10.b : ℚ) tx) (Lerp (p01.b : ℚ) (p11.b : ℚ) tx) ty)
      g := toByte (Lerp (Lerp (p00.g : ℚ) (p10.g : ℚ) tx) (Lerp (p01.g : ℚ) (p11.g : ℚ) tx) ty)
      r := toByte (Lerp (Lerp (p00.r : ℚ) (p10.r : ℚ) tx) (Lerp (p01.r : ℚ) (p11.r : ℚ) tx) ty)
      a := toByte (Lerp (Lerp (p00.a : ℚ) (p10.a : ℚ) tx) (Lerp (p01.a : ℚ) (p11.a : ℚ) tx) ty) }

/-- The 3×3 float matrix `PixelCanvas::Mat3`. -/
structure Mat3 where
  m00 : ℚ
  m01 : ℚ
  m02 : ℚ
  m10 : ℚ
  m11 : ℚ
  m12 : ℚ
  m20 : ℚ
  m21 : ℚ
  m22 : ℚ
deriving DecidableEq

/-- The determinant computed inside `Invert3x3_`:
`det = a00*b00 + a01*b10 + a02*b20` with the cofactors `b00, b10, b20`. -/
def det3 (a : Mat3) : ℚ :=
  a.m00 * (a.m11 * a.m22 - a.m12 * a.m21) +
  a.m01 * (a.m12 * a.m20 - a.m10 * a.m22) +
  a.m02 * (a.m10 * a.m21 - a.m11 * a.m20)

/-- The adjugate-over-determinant matrix assembled by `Invert3x3_` once the
determinant test has passed (entries `bij * invDet`). -/
def adjInv3 (a : Mat3) : Mat3 :=
  let invDet := 1 / det3 a
  ⟨(a.m11 * a.m22 - a.m12 * a.m21) * invDet,
   (a.m02 * a.m21 - a.m01 * a.m22) * invDet,
   (a.m01 * a.m12 - a.m02 * a.m11) * invDet,
   (a.m12 * a.m20 - a.m10 * a.m22) * invDet,
   (a.m00 * a.m22 - a.m02 * a.m20) * invDet,
   (a.m02 * a.m10 - a.m00 * a.m12) * invDet,
   (a.m10 * a.m21 - a.m11 * a.m20) * invDet,
   (a.m01 * a.m20 - a.m00 * a.m21) * invDet,
   (a.m00 * a.m11 - a.m01 * a.m10) * invDet⟩

/-- `PixelCanvas::Invert3x3_` (PixelCanvas.hpp:814-844): cofactor/adjugate
3×3 inverse, failing when `|det| < 1e-8`. -/
def Invert3x3_ (a : Mat3) : Option Mat3 :=
  if |det3 a| < 1 / 100000000 then none else some (adjInv3 a)

/-- `PixelCanvas::UnitSquareToQuad_` (PixelCanvas.hpp:846-887): build the 3×3
matrix mapping the unit square to the quad `p00=(x0,y0), p10=(x1,y1),
p11=(x2,y2), p01=(x3,y3)`, with the affine shortcut and the near-singular
affine fallback. -/
def UnitSquareToQuad_ (x0 y0 x1 y1 x2 y2 x3 y3 : ℚ) : Mat3 :=
  let dx1 := x1 - x2
  let dx2 := x3 - x2
  let dx3 := x0 - x1 + x2 - x3
  let dy1 := y1 - y2
  let dy2 := y3 - y2
  let dy3 := y0 - y1 + y2 - y3
  if |dx3| < 1 / 1000000 ∧ |dy3| < 1 / 1000000 then
    ⟨x1 - x0, x3 - x0, x0, y1 - y0, y3 - y0, y0, 0, 0, 1⟩
  else
    let denom := dx1 * dy2 - dx2 * dy1
    if |denom| < 1 / 100000000 then
      ⟨x1 - x0, x3 - x0, x0, y1 - y0, y3 - y0, y0, 0, 0, 1⟩
    else
      let g := (dx3 * dy2 - dx2 * dy3) / denom
      let h := (dx1 * dy3 - dx3 * dy1) / denom
      ⟨x1 - x0 + g * x1, x3 - x0 + h * x3, x0,
       y1 - y0 + g * y1, y3 - y0 + h * y3, y0,
       g, h, 1⟩

/-- Application of a 3×3 matrix to `(x, y, 1)` followed by the homogeneous
divide, as performed on `invM` in the inner loop of
`PresentPerspectiveToBits_` (PixelCanvas.hpp:1196-1202). -/
def mapHomog (m : Mat3) (x y : ℚ) : ℚ × ℚ :=
  let u := m.m00 * x + m.m01 * y + m.m02
  let v := m.m10 * x + m.m11 * y + m.m12
  let w := m.m20 * x + m.m21 * y + m.m22
  (u / w, v / w)

/-- C1: `UnitSquareToQuad_` is total and three-cased: when `|dx3| < 1e-6` and
`|dy3| < 1e-6` it returns exactly the affine matrix
`[[x1-x0, x3-x0, x0], [y1-y0, y3-y0, y0], [0,0,1]]`; otherwise, when
`|denom| < 1e-8` with `denom = dx1*dy2 - dx2*dy1`, it falls back to that same
affine matrix; otherwise `denom ≠ 0` (so the `g, h` solve never divides by the
near-zero denominator) and it assembles the full projective matrix. -/
theorem unitSquareToQuad_spec (x0 y0 x1 y1 x2 y2 x3 y3 : ℚ) :
    ((|x0 - x1 + x2 - x3| < 1 / 1000000 ∧ |y0 - y1 + y2 - y3| < 1 / 1000000) →
      UnitSquareToQuad_ x0 y0 x1 y1 x2 y2 x3 y3 =
        ⟨x1 - x0, x3 - x0, x0, y1 - y0, y3 - y0, y0, 0, 0, 1⟩) ∧
    (¬ (|x0 - x1 + x2 - x3| < 1 / 1000000 ∧ |y0 - y1 + y2 - y3| < 1 / 1000000) →
      |(x1 - x2) * (y3 - y2) - (x3 - x2) * (y1 - y2)| < 1 / 100000000 →
      UnitSquareToQuad_ x0 y0 x1 y1 x2 y2 x3 y3 =
        ⟨x1 - x0, x3 - x0, x0, y1 - y0, y3 - y0, y0, 0, 0, 1⟩) ∧
    (¬ (|x0 - x1 + x2 - x3| < 1 / 1000000 ∧ |y0 - y1 + y2 - y3| < 1 / 1000000) →
      1 / 100000000 ≤ |(x1 - x2) * (y3 - y2) - (x3 - x2) * (y1 - y2)| →
      (x1 - x2) * (y3 - y2) - (x3 - x2) * (y1 - y2) ≠ 0 ∧
      UnitSquareToQuad_ x0 y0 x1 y1 x2 y2 x3 y3 =
        (let denom := (x1 - x2) * (y3 - y2) - (x3 - x2) * (y1 - y2)
         let g := ((x0 - x1 + x2 - x3) * (y3 - y2) - (x3 - x2) * (y0 - y1 + y2 - y3)) / denom
         let h := ((x1 - x2) * (y0 - y1 + y2 - y3) - (x0 - x1 + x2 - x3) * (y1 - y2)) / denom
         ⟨x1 - x0 + g * x1, x3 - x0 + h * x3, x0,
          y1 - y0 + g * y1, y3 - y0 + h * y3, y0,
          g, h, 1⟩)) := by
  refine ⟨fun h1 => ?_, fun h1 h2 => ?_, fun h1 h2 => ?_⟩
  · rw [UnitSquareToQuad_, if_pos h1]
  · rw [UnitSquareToQuad_, if_neg h1, if_pos h2]
  · refine ⟨fun hz => ?_, ?_⟩
    · rw [hz] at h2
      simp at h2
      exact absurd h2 (by norm_num)
    · rw [UnitSquareToQuad_, if_neg h1, if_neg (not_lt.mpr h2)]

/-- Witness for C1 at a concrete non-degenerate quad: the projective branch
is taken and its denominator is nonzero. -/
theorem unitSquareToQuad_spec_witness :
    ¬ (|(0 : ℚ) - 2 + 3 - 0| < 1 / 1000000 ∧ |(0 : ℚ) - 0 + 3 - 2| < 1 / 1000000) ∧
    (1 / 100000000 : ℚ) ≤ |((2 : ℚ) - 3) * (2 - 3) - (0 - 3) * (0 - 3)| ∧
    ((2 : ℚ) - 3) * (2 - 3) - (0 - 3) * (0 - 3) ≠ 0 := by
  refine ⟨by norm_num, by norm_num, ?_⟩
  exact ((unitSquareToQuad_spec 0 0 2 0 3 3 0 2).2.2 (by norm_num) (by norm_num)).1

lemma clampZ_nonneg (v hi : ℤ) : 0 ≤ clampZ v 0 hi := le_max_left _ _

lemma clampZ_le (v hi : ℤ) (h : 0 ≤ hi) : clampZ v 0 hi ≤ hi := by
  rw [clampZ]
  exact max_le h (min_le_right _ _)

lemma clampZ_idem (v hi : ℤ) (h : 0 ≤ hi) : clampZ (clampZ v 0 hi) 0 hi = clampZ v 0 hi := by
  rw [clampZ, clampZ]
  omega

lemma clampQ_nonneg (v hi : ℚ) : 0 ≤ clampQ v 0 hi := le_max_left _ _

lemma clampQ_le (v hi : ℚ) (h : 0 ≤ hi) : clampQ v 0 hi ≤ hi :=
  max_le h (min_le_right _ _)

lemma clampQ_idem (v hi : ℚ) (h : 0 ≤ hi) : clampQ (clampQ v 0 hi) 0 hi = clampQ v 0 hi := by
  rw [clampQ, clampQ, min_eq_left (max_le h (min_le_right _ _)),
    max_eq_right (le_max_left _ _)]

/-- C6: both samplers are total functions of arbitrary (also far out-of-range)
coordinates, the nearest sampler always reads a pixel of the buffer, and
sampling anywhere outside `[0,width) × [0,height)` returns exactly the value
obtained by sampling at the clamped (nearest edge/corner) coordinate. -/
theorem sampling_clamp_total (src : ℤ → Pixel32) (w h : ℤ) (hw : 0 < w) (hh : 0 < h)
    (sx sy : ℤ) (fx fy : ℚ) :
    SampleNearest_ src w h sx sy
      = SampleNearest_ src w h (clampZ sx 0 (w - 1)) (clampZ sy 0 (h - 1)) ∧
    (∃ ix iy, 0 ≤ ix ∧ ix < w ∧ 0 ≤ iy ∧ iy < h ∧
      SampleNearest_ src w h sx sy = src (iy * w + ix)) ∧
    SampleBilinear_ src w h fx fy
      = SampleBilinear_ src w h (clampQ fx 0 ((w : ℚ) - 1)) (clampQ fy 0 ((h : ℚ) - 1)) := by
  have hw1 : (0 : ℤ) ≤ w - 1 := by omega
  have hh1 : (0 : ℤ) ≤ h - 1 := by omega
  have hwq : (0 : ℚ) ≤ (w : ℚ) - 1 := by
    have : (1 : ℚ) ≤ (w : ℚ) := by exact_mod_cast hw
    linarith
  have hhq : (0 : ℚ) ≤ (h : ℚ) - 1 := by
    have : (1 : ℚ) ≤ (h : ℚ) := by exact_mod_cast hh
    linarith
  refine ⟨?_, ?_, ?_⟩
  · simp only [SampleNearest_]
    rw [clampZ_idem _ _ hw1, clampZ_idem _ _ hh1]
  · refine ⟨clampZ sx 0 (w - 1), clampZ sy 0 (h - 1), clampZ_nonneg _ _, ?_,
      clampZ_nonneg _ _, ?_, rfl⟩
    · have := clampZ_le sx (w - 1) hw1
      omega
    · have := clampZ_le sy (h - 1) hh1
      omega
  · have hcond : ¬ (w ≤ 0 ∨ h ≤ 0) := by omega
    simp only [SampleBilinear_, if_neg hcond]
    rw [clampQ_idem _ _ hwq, clampQ_idem _ _ hhq]

/-- A constant test buffer used by witnesses. -/
def constGray : ℤ → Pixel32 := fun _ => ⟨7, 7, 7, 255⟩

/-- Witness for C6 at a concrete far-out-of-range coordinate. -/
theorem sampling_clamp_total_witness :
    (0 : ℤ) < 2 ∧
    SampleNearest_ constGray 2 2 (-100) 7
      = SampleNearest_ constGray 2 2 (clampZ (-100) 0 (2 - 1)) (clampZ 7 0 (2 - 1)) :=
  ⟨by decide, (sampling_clamp_total constGray 2 2 (by decide) (by decide) (-100) 7 0 0).1⟩

/-- A clip / crop rectangle (`RECT`, integral coordinates). -/
structure RectZ where
  left : ℤ
  top : ℤ
  right : ℤ
  bottom : ℤ
deriving DecidableEq

/-- The fields of `PixelCanvas::TransformParams` consumed by the per-pixel
perspective path.  The rotation angles enter `PresentPerspectiveToBits_` only
through the six cosine/sine values computed from them (lines 1127-1133), which
the embedding carries separately in `Trig`. -/
structure TransformParams where
  scale : ℚ
  offsetX : ℚ
  offsetY : ℚ
  translateZ : ℚ
  perspective : ℚ
  enableClip : Bool
  clipRect : RectZ
  enableSrcCrop : Bool
  srcRect : RectZ
  fast : Bool
deriving DecidableEq

/-- The six values `cos/sin` of the three rotation angles in radians, as
computed at PixelCanvas.hpp:1131-1133.  The claims under verification fix all
angles to zero, where `cos = 1` and `sin = 0` exactly. -/
structure Trig where
  cosX : ℚ
  sinX : ℚ
  cosY : ℚ
  sinY : ℚ
  cosZ : ℚ
  sinZ : ℚ
deriving DecidableEq

/-- The guarded perspective-divide factor of the `Apply3D` lambda
(PixelCanvas.hpp:1162-1163): `|denom| < 1e-5` yields the constant `1e5`,
otherwise `1/denom`. -/
def projFactor (denom : ℚ) : ℚ := if |denom| < 1 / 100000 then 100000 else 1 / denom

/-- The scale and Z-, Y-, X-rotation steps of the `Apply3D` lambda
(PixelCanvas.hpp:1136-1158), returning the rotated `(x, y, z)`. -/
def rotate3 (p : TransformParams) (t : Trig) (x y z : ℚ) : ℚ × ℚ × ℚ :=
  let x := x * p.scale
  let y := y * p.scale
  let z := z * p.scale
  let x1 := x * t.cosZ - y * t.sinZ
  let y1 := x * t.sinZ + y * t.cosZ
  let x2 := x1 * t.cosY + z * t.sinY
  let z2 := -x1 * t.sinY + z * t.cosY
  let y3 := y1 * t.cosX - z2 * t.sinX
  let z3 := y1 * t.sinX + z2 * t.cosX
  (x2, y3, z3)

/-- The `Apply3D` lambda of `PresentPerspectiveToBits_`
(PixelCanvas.hpp:1135-1168): rotate, translate in Z, perspective-divide with
the guarded factor, then recentre on the pivot and apply the 2D offset. -/
def Apply3D (p : TransformParams) (t : Trig) (pivotEnabled : Bool) (pivotX pivotY : ℚ)
    (outW outH : ℤ) (x y z : ℚ) : ℚ × ℚ :=
  let r := rotate3 p t x y z
  let z5 := r.2.2 + p.translateZ
  let factor := projFactor (1 + z5 * p.perspective)
  let baseX := if pivotEnabled then pivotX else (outW : ℚ) * (1 / 2)
  let baseY := if pivotEnabled then pivotY else (outH : ℚ) * (1 / 2)
  (r.1 * factor + baseX + p.offsetX, r.2.1 * factor + baseY + p.offsetY)

/-- C10: the perspective divide in the corner projection is guarded: with
`denom = 1 + z⋆·perspective` (`z⋆` the rotated, Z-translated depth), the
factor is the finite constant `1e5` whenever `|denom| < 1e-5`, is `1/denom`
with `denom ≠ 0` otherwise, is always bounded by `1e5` in absolute value, and
`Apply3D` projects every corner with exactly this factor. -/
theorem apply3D_projFactor (p : TransformParams) (t : Trig) (pe : Bool) (px py : ℚ)
    (outW outH : ℤ) (x y z : ℚ) :
    (|1 + ((rotate3 p t x y z).2.2 + p.translateZ) * p.perspective| < 1 / 100000 →
      projFactor (1 + ((rotate3 p t x y z).2.2 + p.translateZ) * p.perspective) = 100000) ∧
    (1 / 100000 ≤ |1 + ((rotate3 p t x y z).2.2 + p.translateZ) * p.perspective| →
      1 + ((rotate3 p t x y z).2.2 + p.translateZ) * p.perspective ≠ 0 ∧
      projFactor (1 + ((rotate3 p t x y z).2.2 + p.translateZ) * p.perspective) =
        1 / (1 + ((rotate3 p t x y z).2.2 + p.translateZ) * p.perspective)) ∧
    |projFactor (1 + ((rotate3 p t x y z).2.2 + p.translateZ) * p.perspective)| ≤ 100000 ∧
    Apply3D p t pe px py outW outH x y z =
      ((rotate3 p t x y z).1 *
          projFactor (1 + ((rotate3 p t x y z).2.2 + p.translateZ) * p.perspective) +
        (if pe then px else (outW : ℚ) * (1 / 2)) + p.offsetX,
       (rotate3 p t x y z).2.1 *
          projFactor (1 + ((rotate3 p t x y z).2.2 + p.translateZ) * p.perspective) +
        (if pe then py else (outH : ℚ) * (1 / 2)) + p.offsetY) := by
  set d : ℚ := 1 + ((rotate3 p t x y z).2.2 + p.translateZ) * p.perspective with hdd
  refine ⟨fun hlt => by rw [projFactor, if_pos hlt], fun hge => ?_, ?_, rfl⟩
  · have hne : d ≠ 0 := by
      intro h0
      rw [h0] at hge
      norm_num at hge
    exact ⟨hne, by rw [projFactor, if_neg (not_lt.mpr hge)]⟩
  · rw [projFactor]
    split_ifs with hlt
    · norm_num
    · push_neg at hlt
      have habs : (0 : ℚ) < |d| := lt_of_lt_of_le (by norm_num) hlt
      rw [abs_div, abs_one]
      rw [div_le_iff₀ habs]
      nlinarith

/-- Identity trigonometry: the exact values of `cos`/`sin` at angle zero. -/
def idTrig : Trig := ⟨1, 0, 1, 0, 1, 0⟩

/-- The identity transform parameters used by the identity-claim instances:
scale 1, all offsets and depth zero, zero perspective strength, no clip, no
crop. -/
def idParams (fast : Bool) : TransformParams :=
  ⟨1, 0, 0, 0, 0, false, ⟨0, 0, 0, 0⟩, false, ⟨0, 0, 0, 0⟩, fast⟩

/-- Witness for C10 at a concrete corner: the divide branch is taken with a
provably nonzero denominator. -/
theorem apply3D_projFactor_witness :
    (1 / 100000 : ℚ) ≤
      |1 + ((rotate3 (idParams true) idTrig 3 4 0).2.2 +
        (idParams true).translateZ) * (idParams true).perspective| ∧
    (1 + ((rotate3 (idParams true) idTrig 3 4 0).2.2 +
        (idParams true).translateZ) * (idParams true).perspective ≠ 0) :=
  ⟨by norm_num [rotate3, idParams, idTrig],
    ((apply3D_projFactor (idParams true) idTrig false 0 0 8 8 3 4 0).2.1
      (by norm_num [rotate3, idParams, idTrig])).1⟩

lemma itrunc_of_nonneg (q : ℚ) (h : 0 ≤ q) : itrunc q = ⌊q⌋ := by
  rw [itrunc, if_neg (not_lt.mpr h)]

lemma toByte_floor (q : ℚ) (h : 0 ≤ q) : toByte q = (⌊q⌋).toNat := by
  rw [toByte, itrunc_of_nonneg q h]

lemma lerp_nonneg (a b t : ℚ) (ha : 0 ≤ a) (hb : 0 ≤ b) (ht0 : 0 ≤ t) (ht1 : t ≤ 1) :
    0 ≤ Lerp a b t := by
  rw [Lerp]
  nlinarith [mul_nonneg ha (sub_nonneg.mpr ht1), mul_nonneg hb ht0]

/-- Modelled from the spec's words, amended: bilinear sampling with the four
surrounding pixels taken via `floor` of the clamped coordinates, the
fractional parts as interpolation weights, and each channel truncated
(floored), not rounded, to a byte. -/
def bilinearFloorSpec (src : ℤ → Pixel32) (w h : ℤ) (fx fy : ℚ) : Pixel32 :=
  let cfx := clampQ fx 0 ((w : ℚ) - 1)
  let cfy := clampQ fy 0 ((h : ℚ) - 1)
  let x0 : ℤ := ⌊cfx⌋
  let y0 : ℤ := ⌊cfy⌋
  let x1 : ℤ := min (x0 + 1) (w - 1)
  let y1 : ℤ := min (y0 + 1) (h - 1)
  let tx : ℚ := cfx - (x0 : ℚ)
  let ty : ℚ := cfy - (y0 : ℚ)
  let p00 := src (y0 * w + x0)
  let p10 := src (y0 * w + x1)
  let p01 := src (y1 * w + x0)
  let p11 := src (y1 * w + x1)
  { b := (⌊Lerp (Lerp (p00.b : ℚ) (p10.b : ℚ) tx) (Lerp (p01.b : ℚ) (p11.b : ℚ) tx) ty⌋).toNat
    g := (⌊Lerp (Lerp (p00.g : ℚ) (p10.g : ℚ) tx) (Lerp (p01.g : ℚ) (p11.g : ℚ) tx) ty⌋).toNat
    r := (⌊Lerp (Lerp (p00.r : ℚ) (p10.r : ℚ) tx) (Lerp (p01.r : ℚ) (p11.r : ℚ) tx) ty⌋).toNat
    a := (⌊Lerp (Lerp (p00.a : ℚ) (p10.a : ℚ) tx) (Lerp (p01.a : ℚ) (p11.a : ℚ) tx) ty⌋).toNat }

/-- C4 (amended): for positive dimensions, `SampleBilinear_` clamps the
coordinates into `[0,width-1] × [0,height-1]`, takes the four surrounding
pixels at the floors of the clamped coordinates, and interpolates each of the
four channels independently with the fractional parts as weights — but the
channel is truncated (floored) to a byte, not rounded to the nearest byte. -/
theorem sampleBilinear_trunc_spec (src : ℤ → Pixel32) (w h : ℤ) (fx fy : ℚ)
    (hw : 0 < w) (hh : 0 < h) :
    SampleBilinear_ src w h fx fy = bilinearFloorSpec src w h fx fy := by
  have hcond : ¬ (w ≤ 0 ∨ h ≤ 0) := by omega
  simp only [SampleBilinear_, bilinearFloorSpec, if_neg hcond]
  set cfx := clampQ fx 0 ((w : ℚ) - 1) with hcfx
  set cfy := clampQ fy 0 ((h : ℚ) - 1) with hcfy
  rw [itrunc_of_nonneg cfx (clampQ_nonneg _ _), itrunc_of_nonneg cfy (clampQ_nonneg _ _)]
  have htx0 : (0 : ℚ) ≤ cfx - (⌊cfx⌋ : ℚ) := by
    have := Int.floor_le cfx
    linarith
  have htx1 : cfx - (⌊cfx⌋ : ℚ) ≤ 1 := by
    have := Int.lt_floor_add_one cfx
    linarith
  have hty0 : (0 : ℚ) ≤ cfy - (⌊cfy⌋ : ℚ) := by
    have := Int.floor_le cfy
    linarith
  have hty1 : cfy - (⌊cfy⌋ : ℚ) ≤ 1 := by
    have := Int.lt_floor_add_one cfy
    linarith
  rw [Pixel32.mk.injEq]
  refine ⟨?_, ?_, ?_, ?_⟩ <;>
    exact toByte_floor _
      (lerp_nonneg _ _ _
        (lerp_nonneg _ _ _ (Nat.cast_nonneg _) (Nat.cast_nonneg _) htx0 htx1)
        (lerp_nonneg _ _ _ (Nat.cast_nonneg _) (Nat.cast_nonneg _) htx0 htx1) hty0 hty1)

/-- A 4×4 buffer that is black except for a single white pixel at `(1,1)`
(linear index 5), every pixel fully opaque. -/
def whiteAt5 : ℤ → Pixel32 := fun i => if i = 5 then ⟨255, 255, 255, 255⟩ else ⟨0, 0, 0, 255⟩

/-- Counterexample to C4 as stated: bilinear-sampling the single-white-pixel
4×4 buffer at `(1.5, 1.5)` gives channel value 63 (truncation of 63.75),
whereas rounding the quarter-white blend to the nearest byte would give 64. -/
theorem sampleBilinear_round_cex :
    (SampleBilinear_ whiteAt5 4 4 (3 / 2) (3 / 2)).b = 63 ∧
    (⌊Lerp (Lerp (255 : ℚ) 0 (1 / 2)) (Lerp 0 0 (1 / 2)) (1 / 2) + 1 / 2⌋).toNat = 64 := by
  constructor
  · norm_num [SampleBilinear_, whiteAt5, clampQ, itrunc, toByte, Lerp, min_def, max_def]
    decide
  · norm_num [Lerp]
    decide

/-- Witness for C4 (amended) at the single-white-pixel scenario input. -/
theorem sampleBilinear_trunc_spec_witness :
    (0 : ℤ) < 4 ∧
    SampleBilinear_ whiteAt5 4 4 (3 / 2) (3 / 2) = bilinearFloorSpec whiteAt5 4 4 (3 / 2) (3 / 2) :=
  ⟨by norm_num, sampleBilinear_trunc_spec whiteAt5 4 4 (3 / 2) (3 / 2) (by norm_num) (by norm_num)⟩

/-- `_RGBQUAD` (color.hpp): byte channels in memory order b, g, r, unused. -/
structure Rgb where
  b : ℕ
  g : ℕ
  r : ℕ
  unused : ℕ
deriving DecidableEq

/-- `HSLQUAD` (color.hpp). -/
structure Hsl where
  h : ℚ
  s : ℚ
  l : ℚ
deriving DecidableEq

/-- `HSVQUAD` (color.hpp). -/
structure Hsv where
  h : ℚ
  s : ℚ
  v : ℚ
deriving DecidableEq

/-- `RGBToHSL` (color.hpp:67-100). -/
def RGBToHSL (rgb : Rgb) : Hsl :=
  let r := (rgb.r : ℚ) / 255
  let g := (rgb.g : ℚ) / 255
  let b := (rgb.b : ℚ) / 255
  let maxC := max r (max g b)
  let minC := min r (min g b)
  let delta := maxC - minC
  let l := (maxC + minC) * (1 / 2)
  if delta ≤ 0 then ⟨0, 0, l⟩
  else
    let c := maxC + minC
    let denom := if l < 1 / 2 then c else 2 - c
    let s := delta / denom
    let hh :=
      if maxC = r then (g - b) / delta + (if g < b then 6 else 0)
      else if maxC = g then (b - r) / delta + 2
      else (r - g) / delta + 4
    ⟨hh * (1 / 6), s, l⟩

/-- `HSLToRGB` (color.hpp:110-151); the `(r, g, b)` float triple before the
final byte casts, with the `switch` default keeping the initial value `l`. -/
def hslTriple (hsl : Hsl) : ℚ × ℚ × ℚ :=
  let l := hsl.l
  if 0 < hsl.s then
    let tmp := l * (1 + hsl.s)
    let v := if l ≤ 1 / 2 then tmp else l + hsl.s - l * hsl.s
    let m := 2 * l - v
    let sv := (v - m) / v
    let h6 := if hsl.h * 6 < 0 then hsl.h * 6 + 6 else hsl.h * 6
    let sextant := itrunc h6
    let fract := h6 - (sextant : ℚ)
    let vsf := v * sv * fract
    let mid1 := m + vsf
    let mid2 := v - vsf
    if sextant = 0 then (v, mid1, m)
    else if sextant = 1 then (mid2, v, m)
    else if sextant = 2 then (m, v, mid1)
    else if sextant = 3 then (m, mid2, v)
    else if sextant = 4 then (mid1, m, v)
    else if sextant = 5 then (v, m, mid2)
    else (l, l, l)
  else (l, l, l)

/-- `HSLToRGB` (color.hpp:110-151): byte casts `(BYTE)(x * 255 + 0.5)`. -/
def HSLToRGB (hsl : Hsl) : Rgb :=
  let t := hslTriple hsl
  ⟨toByte (t.2.2 * 255 + 1 / 2), toByte (t.2.1 * 255 + 1 / 2), toByte (t.1 * 255 + 1 / 2), 0⟩

/-- `RGBToHSV` (color.hpp:161-182): the chain of conditional reassignments of
`h`, then `s`, `v`, and the final `h / 360` scaling. -/
def RGBToHSV (rgb : Rgb) : Hsv :=
  let r := (rgb.r : ℚ) / 255
  let g := (rgb.g : ℚ) / 255
  let b := (rgb.b : ℚ) / 255
  let minC := min r (min g b)
  let maxC := max r (max g b)
  let subC := maxC - minC
  let h0 : ℚ := 0
  let h1 := if maxC = minC then 0 else h0
  let h2 := if maxC = r ∧ b ≤ g then 60 * ((g - b) / subC) else h1
  let h3 := if maxC = r ∧ g < b then 60 * ((g - b) / subC) + 360 else h2
  let h4 := if maxC = g then 60 * ((b - r) / subC) + 120 else h3
  let h5 := if maxC = b then 60 * ((r - g) / subC) + 240 else h4
  let s := if maxC = 0 then 0 else 1 - minC / maxC
  ⟨h5 / 360, s, maxC⟩

/-- `HSVToRGB` (color.hpp:192-225); the `(r, g, b)` float triple before the
final byte casts.  `fmod(x, 1.0f)` is `x - trunc(x)`; the `switch` default
keeps the initial value 0. -/
def hsvTriple (hsv : Hsv) : ℚ × ℚ × ℚ :=
  if hsv.s = 0 then (hsv.v, hsv.v, hsv.v)
  else
    let h6 := hsv.h * 360 / 60
    let f := h6 - (itrunc h6 : ℚ)
    let p := hsv.v * (1 - hsv.s)
    let q := hsv.v * (1 - f * hsv.s)
    let t := hsv.v * (1 - (1 - f) * hsv.s)
    let sextant := itrunc h6
    if sextant = 0 then (hsv.v, t, p)
    else if sextant = 1 then (q, hsv.v, p)
    else if sextant = 2 then (p, hsv.v, t)
    else if sextant = 3 then (p, q, hsv.v)
    else if sextant = 4 then (t, p, hsv.v)
    else if sextant = 5 then (hsv.v, p, q)
    else (0, 0, 0)

/-- `HSVToRGB` (color.hpp:192-225): byte casts `(BYTE)(x * 255 + 0.5)`. -/
def HSVToRGB (hsv : Hsv) : Rgb :=
  let t := hsvTriple hsv
  ⟨toByte (t.2.2 * 255 + 1 / 2), toByte (t.2.1 * 255 + 1 / 2), toByte (t.1 * 255 + 1 / 2), 0⟩

/-- The `PixelCanvas` state relevant to the pixel accessors: dimensions and
the linear pixel array. -/
structure PixelCanvas where
  w : ℤ
  h : ℤ
  pixels : ℤ → Pixel32

/-- `PixelCanvas::InBounds` (PixelCanvas.hpp:392-395). -/
def InBounds (c : PixelCanvas) (x y : ℤ) : Prop :=
  0 ≤ x ∧ 0 ≤ y ∧ x < c.w ∧ y < c.h

instance (c : PixelCanvas) (x y : ℤ) : Decidable (InBounds c x y) := by
  unfold InBounds
  infer_instance

/-- `PixelCanvas::ToRgb`. -/
def ToRgb (p : Pixel32) : Rgb := ⟨p.b, p.g, p.r, 0⟩

/-- `PixelCanvas::FromRgb`. -/
def FromRgb (c : Rgb) (a : ℕ) : Pixel32 := ⟨c.b, c.g, c.r, a⟩

/-- `PixelCanvas::ToHsl`. -/
def ToHsl (p : Pixel32) : Hsl := RGBToHSL (ToRgb p)

/-- `PixelCanvas::FromHsl`. -/
def FromHsl (hsl : Hsl) (a : ℕ) : Pixel32 := FromRgb (HSLToRGB hsl) a

/-- `PixelCanvas::ToHsv`. -/
def ToHsv (p : Pixel32) : Hsv := RGBToHSV (ToRgb p)

/-- `PixelCanvas::FromHsv`. -/
def FromHsv (hsv : Hsv) (a : ℕ) : Pixel32 := FromRgb (HSVToRGB hsv) a

/-- `PixelCanvas::GetRgb` (PixelCanvas.hpp:398-402): bounds-checked read,
zero `_RGBQUAD` when out of range. -/
def GetRgb (c : PixelCanvas) (x y : ℤ) : Rgb :=
  if InBounds c x y then ToRgb (c.pixels (y * c.w + x)) else ⟨0, 0, 0, 0⟩

/-- `PixelCanvas::SetRgb` (PixelCanvas.hpp:404-408): bounds-checked write. -/
def SetRgb (c : PixelCanvas) (x y : ℤ) (col : Rgb) (a : ℕ) : PixelCanvas :=
  if InBounds c x y then
    { c with pixels := fun i => if i = y * c.w + x then FromRgb col a else c.pixels i }
  else c

/-- `PixelCanvas::GetHsl` (PixelCanvas.hpp:411-415). -/
def GetHsl (c : PixelCanvas) (x y : ℤ) : Hsl :=
  if InBounds c x y then ToHsl (c.pixels (y * c.w + x)) else ⟨0, 0, 0⟩

/-- `PixelCanvas::SetHsl` (PixelCanvas.hpp:417-421). -/
def SetHsl (c : PixelCanvas) (x y : ℤ) (hsl : Hsl) (a : ℕ) : PixelCanvas :=
  if InBounds c x y then
    { c with pixels := fun i => if i = y * c.w + x then FromHsl hsl a else c.pixels i }
  else c

/-- `PixelCanvas::GetHsv` (PixelCanvas.hpp:424-428). -/
def GetHsv (c : PixelCanvas) (x y : ℤ) : Hsv :=
  if InBounds c x y then ToHsv (c.pixels (y * c.w + x)) else ⟨0, 0, 0⟩

/-- `PixelCanvas::SetHsv` (PixelCanvas.hpp:430-434). -/
def SetHsv (c : PixelCanvas) (x y : ℤ) (hsv : Hsv) (a : ℕ) : PixelCanvas :=
  if InBounds c x y then
    { c with pixels := fun i => if i = y * c.w + x then FromHsv hsv a else c.pixels i }
  else c

/-- Writes through the bounds-checked setter never land outside the allocated
index range `[0, w*h)`, for arbitrary (also in-range) coordinates. -/
lemma setRgb_stays_in_allocation (c : PixelCanvas) (x y : ℤ) (col : Rgb) (a : ℕ) (i : ℤ)
    (hi : i < 0 ∨ c.w * c.h ≤ i) :
    (SetRgb c x y col a).pixels i = c.pixels i := by
  rw [SetRgb]
  split_ifs with hin
  · simp only
    rw [if_neg]
    obtain ⟨hx0, hy0, hxw, hyh⟩ := hin
    intro he
    have h1 : y * c.w ≤ (c.h - 1) * c.w :=
      mul_le_mul_of_nonneg_right (by omega) (by omega)
    have h2 : 0 ≤ y * c.w := mul_nonneg hy0 (by omega)
    have h3 : (c.h - 1) * c.w = c.w * c.h - c.w := by ring
    rw [he] at hi
    rcases hi with hi | hi
    · linarith
    · linarith
  · rfl

/-- C8: for every coordinate outside the canvas, every Get variant returns
the zero value and every Set variant leaves every pixel of the backing array
unchanged; moreover no Set, at any coordinate whatsoever, ever changes a cell
outside the allocated index range `[0, w*h)`. -/
theorem accessors_out_of_bounds (c : PixelCanvas) (x y : ℤ)
    (hout : x < 0 ∨ y < 0 ∨ c.w ≤ x ∨ c.h ≤ y) :
    GetRgb c x y = ⟨0, 0, 0, 0⟩ ∧ GetHsl c x y = ⟨0, 0, 0⟩ ∧ GetHsv c x y = ⟨0, 0, 0⟩ ∧
    (∀ col a i, (SetRgb c x y col a).pixels i = c.pixels i) ∧
    (∀ hsl a i, (SetHsl c x y hsl a).pixels i = c.pixels i) ∧
    (∀ hsv a i, (SetHsv c x y hsv a).pixels i = c.pixels i) ∧
    (∀ (u v : ℤ) (col : Rgb) (a : ℕ) (i : ℤ), i < 0 ∨ c.w * c.h ≤ i →
      (SetRgb c u v col a).pixels i = c.pixels i) := by
  have hni : ¬ InBounds c x y := by
    unfold InBounds
    omega
  refine ⟨by rw [GetRgb, if_neg hni], by rw [GetHsl, if_neg hni], by rw [GetHsv, if_neg hni],
    ?_, ?_, ?_, fun u v col a i hi => setRgb_stays_in_allocation c u v col a i hi⟩
  · intro col a i
    rw [SetRgb, if_neg hni]
  · intro hsl a i
    rw [SetHsl, if_neg hni]
  · intro hsv a i
    rw [SetHsv, if_neg hni]

/-- A concrete 2×2 canvas used by witnesses. -/
def smallCanvas : PixelCanvas := ⟨2, 2, fun _ => ⟨1, 2, 3, 4⟩⟩

/-- Witness for C8 at a concrete out-of-range coordinate. -/
theorem accessors_out_of_bounds_witness :
    ((-1 : ℤ) < 0 ∨ (0 : ℤ) < 0 ∨ smallCanvas.w ≤ -1 ∨ smallCanvas.h ≤ 0) ∧
    GetRgb smallCanvas (-1) 0 = ⟨0, 0, 0, 0⟩ :=
  ⟨Or.inl (by norm_num),
    (accessors_out_of_bounds smallCanvas (-1) 0 (Or.inl (by norm_num))).1⟩

/-- The observable behaviour of the OS calls `InitFromDC_` makes on a target
DC: whether `GetClipBox` succeeds and the clip sizes it reports, the
`GetDeviceCaps` resolution, and whether `CreateCompatibleDC` /
`CreateDIBSection` succeed. -/
structure DcEnv where
  clipOk : Bool
  clipW : ℤ
  clipH : ℤ
  capsW : ℤ
  capsH : ℤ
  compatDcOk : Bool
  dibOk : Bool
deriving DecidableEq

/-- The environment `InitScreen_` sees: whether `GetDC(nullptr)` succeeds,
the `GetSystemMetrics` screen size, and the screen DC behaviour. -/
structure ScreenEnv where
  getDcOk : Bool
  screenW : ℤ
  screenH : ℤ
  dc : DcEnv
deriving DecidableEq

/-- `PixelCanvas::InferSize_` (PixelCanvas.hpp:1341-1356): clip-box size
first, device-caps resolution as the fallback when that is non-positive. -/
def InferSize_ (dc : DcEnv) : ℤ × ℤ :=
  let first := if dc.clipOk then (dc.clipW, dc.clipH) else ((0 : ℤ), (0 : ℤ))
  if first.1 ≤ 0 ∨ first.2 ≤ 0 then (dc.capsW, dc.capsH) else first

/-- `PixelCanvas::InitFromDC_` (PixelCanvas.hpp:1358-1393): size inference
for non-positive requested sizes, then the three throwing failure points
(`unable to infer target size`, `CreateCompatibleDC`, `CreateDIBSection`);
a fresh DIB section is zero-initialized. -/
def InitFromDC_ (dc : DcEnv) (w h : ℤ) : Except String PixelCanvas :=
  let inferred := InferSize_ dc
  let iw := if w ≤ 0 ∨ h ≤ 0 then inferred.1 else w
  let ih := if w ≤ 0 ∨ h ≤ 0 then inferred.2 else h
  if iw ≤ 0 ∨ ih ≤ 0 then .error "PixelCanvas: unable to infer target size."
  else if ¬ dc.compatDcOk then .error "PixelCanvas: CreateCompatibleDC failed."
  else if ¬ dc.dibOk then .error "PixelCanvas: CreateDIBSection failed."
  else .ok ⟨iw, ih, fun _ => ⟨0, 0, 0, 0⟩⟩

/-- `PixelCanvas::InitScreen_` (PixelCanvas.hpp:1332-1339). -/
def InitScreen_ (s : ScreenEnv) : Except String PixelCanvas :=
  if ¬ s.getDcOk then .error "PixelCanvas: GetDC failed."
  else InitFromDC_ s.dc s.screenW s.screenH

/-- The constructor `PixelCanvas(HDC target, int w, int h)`
(PixelCanvas.hpp:293-301): a null target diverts to `InitScreen_` (ignoring
`w`, `h`); otherwise non-positive explicit sizes throw, then `InitFromDC_`
runs. -/
def PixelCanvasCtorWH (s : ScreenEnv) (target : Option DcEnv) (w h : ℤ) :
    Except String PixelCanvas :=
  match target with
  | none => InitScreen_ s
  | some dc =>
      if w ≤ 0 ∨ h ≤ 0 then .error "PixelCanvas: invalid width or height."
      else InitFromDC_ dc w h

lemma initFromDC_pos (dc : DcEnv) (w h : ℤ) (c : PixelCanvas)
    (hok : InitFromDC_ dc w h = .ok c) : 0 < c.w ∧ 0 < c.h := by
  rw [InitFromDC_] at hok
  split_ifs at hok with h1 h2 h3 <;> cases hok <;> dsimp only <;> omega

/-- A screen environment in which every OS call succeeds. -/
def goodScreen : ScreenEnv := ⟨true, 800, 600, ⟨true, 800, 600, 800, 600, true, true⟩⟩

/-- Counterexample to C9 as stated: requesting the explicitly non-positive
size `(-1, -1)` through the `(HDC, int, int)` constructor with a *null*
target DC does not fail — the sizes are ignored and a screen-sized canvas is
returned. -/
theorem ctor_nullTarget_cex :
    PixelCanvasCtorWH goodScreen none (-1) (-1) = .ok ⟨800, 600, fun _ => ⟨0, 0, 0, 0⟩⟩ ∧
    (-1 : ℤ) ≤ 0 :=
  ⟨rfl, by norm_num⟩

/-- C9 (amended): with a non-null target DC the constructor rejects every
explicitly non-positive width/height with a synchronous error (and an
undeterminable target size is also an error), while a null target ignores the
requested sizes; in all cases every successfully constructed canvas has
strictly positive width and height. -/
theorem ctor_invalid_size (s : ScreenEnv) (dc : DcEnv) (w h : ℤ) :
    (w ≤ 0 ∨ h ≤ 0 →
      PixelCanvasCtorWH s (some dc) w h = .error "PixelCanvas: invalid width or height.") ∧
    (∀ target c, PixelCanvasCtorWH s target w h = .ok c → 0 < c.w ∧ 0 < c.h) := by
  constructor
  · intro hwh
    rw [PixelCanvasCtorWH, if_pos hwh]
  · intro target c hok
    match target with
    | none =>
        rw [PixelCanvasCtorWH, InitScreen_] at hok
        split_ifs at hok
        exact initFromDC_pos s.dc s.screenW s.screenH c hok
    | some dc2 =>
        rw [PixelCanvasCtorWH] at hok
        split_ifs at hok
        exact initFromDC_pos dc2 w h c hok

/-- Witness for C9 (amended) at a concrete non-positive request. -/
theorem ctor_invalid_size_witness :
    ((0 : ℤ) ≤ 0 ∨ (5 : ℤ) ≤ 0) ∧
    PixelCanvasCtorWH goodScreen (some goodScreen.dc) 0 5 =
      .error "PixelCanvas: invalid width or height." :=
  ⟨Or.inl le_rfl, (ctor_invalid_size goodScreen goodScreen.dc 0 5).1 (Or.inl le_rfl)⟩

lemma decode_idx (w x y : ℤ) (hx0 : 0 ≤ x) (hxw : x < w) :
    (y * w + x) % w = x ∧ (y * w + x) / w = y := by
  have h1 : y * w + x = x + w * y := by ring
  constructor
  · rw [h1, Int.add_mul_emod_self_left, Int.emod_eq_of_lt hx0 hxw]
  · rw [h1, Int.add_mul_ediv_left x y (by omega : w ≠ 0),
      Int.ediv_eq_zero_of_lt hx0 hxw, zero_add]

lemma idx_range (w h x y : ℤ) (hx0 : 0 ≤ x) (hxw : x < w) (hy0 : 0 ≤ y) (hyh : y < h) :
    0 ≤ y * w + x ∧ y * w + x < w * h := by
  have h1 : y * w ≤ (h - 1) * w := mul_le_mul_of_nonneg_right (by omega) (by omega)
  have h2 : 0 ≤ y * w := mul_nonneg hy0 (by omega)
  have h3 : (h - 1) * w = w * h - w := by ring
  constructor <;> omega

/-- The body of the per-pixel loop of `PixelCanvas::ApplyFishEye_`
(PixelCanvas.hpp:939-967) for destination pixel `(x, y)`, with `strength`
already clamped.  In exact arithmetic the source's
`t = dist/radius` enters only through `t*t = dist2/radius²`, the guard
`dist > 1e-4` is `dist2 > 1e-8` on squares, and
`dx * (shrink/dist) * dist = dx * shrink` (`dist ≠ 0` in that branch). -/
def fishPixel (src : ℤ → Pixel32) (w h : ℤ) (cx cy radius strength : ℚ) (fast : Bool)
    (x y : ℤ) : Pixel32 :=
  let dy := (y : ℚ) - cy
  let dx := (x : ℚ) - cx
  let dist2 := dx * dx + dy * dy
  if radius * radius ≤ dist2 then src (y * w + x)
  else
    let t2 := if 0 < radius then dist2 / (radius * radius) else 1
    let shrink := 1 - strength * (1 - t2)
    let sx := if 1 / 100000000 < dist2 then cx + dx * shrink else cx
    let sy := if 1 / 100000000 < dist2 then cy + dy * shrink else cy
    if fast then SampleNearest_ src w h (itrunc (sx + 1 / 2)) (itrunc (sy + 1 / 2))
    else SampleBilinear_ src w h sx sy

/-- `PixelCanvas::ApplyFishEye_` (PixelCanvas.hpp:927-969): early identity
copy when `radius ≤ 1` or `strength ≤ 0`, otherwise clamp the strength to
`[0, 1.5]` and run the radial per-pixel loop.  The function returns the final
contents of `dst`: cell `i` of the output region decodes to destination pixel
`(i % w, i / w)`; cells outside `[0, w*h)` keep their previous value. -/
def ApplyFishEye_ (src dst0 : ℤ → Pixel32) (w h : ℤ) (cx cy radius strength : ℚ)
    (fast : Bool) : ℤ → Pixel32 :=
  if w ≤ 0 ∨ h ≤ 0 then dst0
  else if radius ≤ 1 ∨ strength ≤ 0 then
    fun i => if 0 ≤ i ∧ i < w * h then src i else dst0 i
  else
    let s := clampQ strength 0 (3 / 2)
    fun i =>
      if 0 ≤ i ∧ i < w * h then fishPixel src w h cx cy radius s fast (i % w) (i / w)
      else dst0 i

/-- `LayeredTextout3D::ApplyFishEyeEffect` (LayeredTextout.hpp:910-962): the
duplicated fisheye site.  The DIB contents `bits` are first copied to a temp
buffer which becomes the sampling source; the effective strength is
`fishEyeStrength * fishEyeProgress` clamped to `[0, 1.5]` and the radius is
`max(1, fishEyeRadius)`; pixels at `dist ≥ radius` are skipped (so keep their
original value); sampling is nearest-only. -/
def ApplyFishEyeEffect (bits : ℤ → Pixel32) (w h : ℤ) (progress strengthP radiusP : ℚ) :
    ℤ → Pixel32 :=
  if w ≤ 0 ∨ h ≤ 0 then bits
  else
    let strength := clampQ (strengthP * progress) 0 (3 / 2)
    let radius := max 1 radiusP
    let cx := (w : ℚ) * (1 / 2)
    let cy := (h : ℚ) * (1 / 2)
    fun i =>
      if 0 ≤ i ∧ i < w * h then
        let x := i % w
        let y := i / w
        let dy := (y : ℚ) - cy
        let dx := (x : ℚ) - cx
        let dist2 := dx * dx + dy * dy
        if radius * radius ≤ dist2 then bits i
        else
          let shrink := 1 - strength * (1 - dist2 / (radius * radius))
          SampleNearest_ bits w h (itrunc (cx + dx * shrink + 1 / 2))
            (itrunc (cy + dy * shrink + 1 / 2))
      else bits i

/-- A 2×1 buffer with two distinct pixels. -/
def twoPix : ℤ → Pixel32 := fun i => if i = 1 then ⟨200, 200, 200, 255⟩ else ⟨10, 10, 10, 255⟩

/-- Counterexample to C5 as stated: with `radius = 1 ≤ 1` the `ApplyFishEye_`
site copies the buffer unchanged, yet destination pixel `(0,0)` lies strictly
inside the radius and the claimed shrink-sampling formula would fetch the
*other* source pixel. -/
theorem fishEye_smallRadius_cex :
    (((0 : ℚ) - 1 / 2) * ((0 : ℚ) - 1 / 2) + 0 * 0 < (1 : ℚ) * 1) ∧
    ApplyFishEye_ twoPix (fun _ => ⟨0, 0, 0, 0⟩) 2 1 (1 / 2) 0 1 (3 / 2) true 0
      = ⟨10, 10, 10, 255⟩ ∧
    SampleNearest_ twoPix 2 1
      (itrunc ((1 / 2 : ℚ) + ((0 : ℚ) - 1 / 2) *
        (1 - clampQ (3 / 2) 0 (3 / 2) *
          (1 - (((0 : ℚ) - 1 / 2) * ((0 : ℚ) - 1 / 2) + 0 * 0) / ((1 : ℚ) * 1))) + 1 / 2))
      (itrunc ((0 : ℚ) + 0 * (1 - clampQ (3 / 2) 0 (3 / 2) *
          (1 - (((0 : ℚ) - 1 / 2) * ((0 : ℚ) - 1 / 2) + 0 * 0) / ((1 : ℚ) * 1))) + 1 / 2))
      = ⟨200, 200, 200, 255⟩ ∧
    (⟨10, 10, 10, 255⟩ : Pixel32) ≠ ⟨200, 200, 200, 255⟩ := by
  refine ⟨by norm_num, ?_, ?_, by decide⟩
  · norm_num [ApplyFishEye_, twoPix]
  · norm_num [SampleNearest_, twoPix, clampQ, itrunc, clampZ, min_def, max_def]

lemma applyFishEye_apply (src dst0 : ℤ → Pixel32) (w h : ℤ) (cx cy radius strength : ℚ)
    (fast : Bool) (i : ℤ) (hw : 0 < w) (hh : 0 < h) (hrad : 1 < radius) (hstr : 0 < strength)
    (hi : 0 ≤ i ∧ i < w * h) :
    ApplyFishEye_ src dst0 w h cx cy radius strength fast i =
      fishPixel src w h cx cy radius (clampQ strength 0 (3 / 2)) fast (i % w) (i / w) := by
  rw [ApplyFishEye_, if_neg (by omega : ¬ (w ≤ 0 ∨ h ≤ 0)),
    if_neg (by push_neg; exact ⟨hrad, hstr⟩ : ¬ (radius ≤ 1 ∨ strength ≤ 0))]
  rw [if_pos hi]

/-- C5 (amended): at both duplicated fisheye sites, with the guards the code
actually has.  Site `PixelCanvas::ApplyFishEye_`, given `radius > 1` and
`strength > 0` (otherwise it copies the buffer unchanged): the strength is
clamped into `[0, 1.5]`; a destination pixel at squared distance `≥ radius²`
from the center receives the source pixel at the same position; one with
`1e-8 < dist² < radius²` receives the (nearest or bilinear) sample at
`center + (dest - center) * shrink` with `shrink = 1 - s*(1 - t²)`,
`t² = dist²/radius²`; and one with `dist² ≤ 1e-8` is sampled exactly at the
center.  Site `ApplyFishEyeEffect`: with effective strength
`clamp(fishEyeStrength*progress, 0, 1.5)`, radius `max(1, fishEyeRadius)` and
center `(w/2, h/2)`, pixels at `dist² ≥ radius²` are unchanged and the rest
receive the nearest sample at `center + (dest - center) * shrink`. -/
theorem fishEye_pixel_spec (src dst0 bits : ℤ → Pixel32) (w h : ℤ)
    (cx cy radius strength : ℚ) (fast : Bool) (progress strengthP radiusP : ℚ) (x y : ℤ)
    (hw : 0 < w) (hh : 0 < h) (hx0 : 0 ≤ x) (hxw : x < w) (hy0 : 0 ≤ y) (hyh : y < h)
    (hrad : 1 < radius) (hstr : 0 < strength) :
    (radius * radius ≤
        ((x : ℚ) - cx) * ((x : ℚ) - cx) + ((y : ℚ) - cy) * ((y : ℚ) - cy) →
      ApplyFishEye_ src dst0 w h cx cy radius strength fast (y * w + x) = src (y * w + x)) ∧
    (((x : ℚ) - cx) * ((x : ℚ) - cx) + ((y : ℚ) - cy) * ((y : ℚ) - cy) < radius * radius →
      1 / 100000000 <
        ((x : ℚ) - cx) * ((x : ℚ) - cx) + ((y : ℚ) - cy) * ((y : ℚ) - cy) →
      ApplyFishEye_ src dst0 w h cx cy radius strength fast (y * w + x) =
        (if fast then
          SampleNearest_ src w h
            (itrunc (cx + ((x : ℚ) - cx) *
              (1 - clampQ strength 0 (3 / 2) *
                (1 - (((x : ℚ) - cx) * ((x : ℚ) - cx) + ((y : ℚ) - cy) * ((y : ℚ) - cy)) /
                  (radius * radius))) + 1 / 2))
            (itrunc (cy + ((y : ℚ) - cy) *
              (1 - clampQ strength 0 (3 / 2) *
                (1 - (((x : ℚ) - cx) * ((x : ℚ) - cx) + ((y : ℚ) - cy) * ((y : ℚ) - cy)) /
                  (radius * radius))) + 1 / 2))
        else
          SampleBilinear_ src w h
            (cx + ((x : ℚ) - cx) *
              (1 - clampQ strength 0 (3 / 2) *
                (1 - (((x : ℚ) - cx) * ((x : ℚ) - cx) + ((y : ℚ) - cy) * ((y : ℚ) - cy)) /
                  (radius * radius))))
            (cy + ((y : ℚ) - cy) *
              (1 - clampQ strength 0 (3 / 2) *
                (1 - (((x : ℚ) - cx) * ((x : ℚ) - cx) + ((y : ℚ) - cy) * ((y : ℚ) - cy)) /
                  (radius * radius)))))) ∧
    (((x : ℚ) - cx) * ((x : ℚ) - cx) + ((y : ℚ) - cy) * ((y : ℚ) - cy) < radius * radius →
      ((x : ℚ) - cx) * ((x : ℚ) - cx) + ((y : ℚ) - cy) * ((y : ℚ) - cy) ≤ 1 / 100000000 →
      ApplyFishEye_ src dst0 w h cx cy radius strength fast (y * w + x) =
        (if fast then
          SampleNearest_ src w h (itrunc (cx + 1 / 2)) (itrunc (cy + 1 / 2))
        else SampleBilinear_ src w h cx cy)) ∧
    (max 1 radiusP * max 1 radiusP ≤
        ((x : ℚ) - (w : ℚ) * (1 / 2)) * ((x : ℚ) - (w : ℚ) * (1 / 2)) +
          ((y : ℚ) - (h : ℚ) * (1 / 2)) * ((y : ℚ) - (h : ℚ) * (1 / 2)) →
      ApplyFishEyeEffect bits w h progress strengthP radiusP (y * w + x) = bits (y * w + x)) ∧
    (((x : ℚ) - (w : ℚ) * (1 / 2)) * ((x : ℚ) - (w : ℚ) * (1 / 2)) +
        ((y : ℚ) - (h : ℚ) * (1 / 2)) * ((y : ℚ) - (h : ℚ) * (1 / 2)) <
        max 1 radiusP * max 1 radiusP →
      ApplyFishEyeEffect bits w h progress strengthP radiusP (y * w + x) =
        SampleNearest_ bits w h
          (itrunc ((w : ℚ) * (1 / 2) + ((x : ℚ) - (w : ℚ) * (1 / 2)) *
            (1 - clampQ (strengthP * progress) 0 (3 / 2) *
              (1 - (((x : ℚ) - (w : ℚ) * (1 / 2)) * ((x : ℚ) - (w : ℚ) * (1 / 2)) +
                ((y : ℚ) - (h : ℚ) * (1 / 2)) * ((y : ℚ) - (h : ℚ) * (1 / 2))) /
                  (max 1 radiusP * max 1 radiusP))) + 1 / 2))
          (itrunc ((h : ℚ) * (1 / 2) + ((y : ℚ) - (h : ℚ) * (1 / 2)) *
            (1 - clampQ (strengthP * progress) 0 (3 / 2) *
              (1 - (((x : ℚ) - (w : ℚ) * (1 / 2)) * ((x : ℚ) - (w : ℚ) * (1 / 2)) +
                ((y : ℚ) - (h : ℚ) * (1 / 2)) * ((y : ℚ) - (h : ℚ) * (1 / 2))) /
                  (max 1 radiusP * max 1 radiusP))) + 1 / 2))) := by
  obtain ⟨hi0, hiw⟩ := idx_range w h x y hx0 hxw hy0 hyh
  obtain ⟨hmod, hdiv⟩ := decode_idx w x y hx0 hxw
  have happ := applyFishEye_apply src dst0 w h cx cy radius strength fast (y * w + x)
    hw hh hrad hstr ⟨hi0, hiw⟩
  rw [hmod, hdiv] at happ
  have hradpos : (0 : ℚ) < radius := by linarith
  refine ⟨fun hge => ?_, fun hlt hguard => ?_, fun hlt hguard => ?_, fun hge => ?_,
    fun hlt => ?_⟩
  · rw [happ]
    simp only [fishPixel]
    rw [if_pos hge]
  · rw [happ]
    simp only [fishPixel]
    rw [if_neg (not_le.mpr hlt), if_pos hradpos, if_pos hguard, if_pos hguard]
  · rw [happ]
    simp only [fishPixel]
    rw [if_neg (not_le.mpr hlt), if_neg (not_lt.mpr hguard), if_neg (not_lt.mpr hguard)]
  · rw [ApplyFishEyeEffect, if_neg (by omega : ¬ (w ≤ 0 ∨ h ≤ 0))]
    dsimp only
    rw [if_pos ⟨hi0, hiw⟩, hmod, hdiv, if_pos hge]
  · rw [ApplyFishEyeEffect, if_neg (by omega : ¬ (w ≤ 0 ∨ h ≤ 0))]
    dsimp only
    rw [if_pos ⟨hi0, hiw⟩, hmod, hdiv, if_neg (not_le.mpr hlt)]

/-- Witness for C5 (amended) at a concrete pixel outside the radius. -/
theorem fishEye_pixel_spec_witness :
    ((3 / 2 : ℚ) * (3 / 2) ≤
      ((2 : ℚ) - 0) * ((2 : ℚ) - 0) + ((2 : ℚ) - 0) * ((2 : ℚ) - 0)) ∧
    ApplyFishEye_ twoPix (fun _ => ⟨0, 0, 0, 0⟩) 3 3 0 0 (3 / 2) 1 true (2 * 3 + 2)
      = twoPix (2 * 3 + 2) :=
  ⟨by norm_num,
    (fishEye_pixel_spec twoPix (fun _ => ⟨0, 0, 0, 0⟩) twoPix 3 3 0 0 (3 / 2) 1 true
      0 0 0 2 2 (by norm_num) (by norm_num) (by norm_num) (by norm_num) (by norm_num)
      (by norm_num) (by norm_num) (by norm_num)).1 (by norm_num)⟩

lemma adjInv3_roundtrip (a : Mat3) (hd : det3 a ≠ 0) (u v : ℚ)
    (hW : a.m20 * u + a.m21 * v + a.m22 ≠ 0) :
    mapHomog (adjInv3 a) ((mapHomog a u v).1) ((mapHomog a u v).2) = (u, v) := by
  have hd' : a.m00 * (a.m11 * a.m22 - a.m12 * a.m21) +
      a.m01 * (a.m12 * a.m20 - a.m10 * a.m22) +
      a.m02 * (a.m10 * a.m21 - a.m11 * a.m20) ≠ 0 := hd
  have hkey0 : (adjInv3 a).m20 *
        ((a.m00 * u + a.m01 * v + a.m02) / (a.m20 * u + a.m21 * v + a.m22)) +
      (adjInv3 a).m21 *
        ((a.m10 * u + a.m11 * v + a.m12) / (a.m20 * u + a.m21 * v + a.m22)) +
      (adjInv3 a).m22 = 1 / (a.m20 * u + a.m21 * v + a.m22) := by
    simp only [adjInv3, det3]
    field_simp
    ring
  have hkey1 : (adjInv3 a).m00 *
        ((a.m00 * u + a.m01 * v + a.m02) / (a.m20 * u + a.m21 * v + a.m22)) +
      (adjInv3 a).m01 *
        ((a.m10 * u + a.m11 * v + a.m12) / (a.m20 * u + a.m21 * v + a.m22)) +
      (adjInv3 a).m02 = u / (a.m20 * u + a.m21 * v + a.m22) := by
    simp only [adjInv3, det3]
    field_simp
    ring
  have hkey2 : (adjInv3 a).m10 *
        ((a.m00 * u + a.m01 * v + a.m02) / (a.m20 * u + a.m21 * v + a.m22)) +
      (adjInv3 a).m11 *
        ((a.m10 * u + a.m11 * v + a.m12) / (a.m20 * u + a.m21 * v + a.m22)) +
      (adjInv3 a).m12 = v / (a.m20 * u + a.m21 * v + a.m22) := by
    simp only [adjInv3, det3]
    field_simp
    ring
  show (_, _) = (u, v)
  simp only [mapHomog]
  rw [hkey0, hkey1, hkey2, Prod.mk.injEq]
  constructor <;> (field_simp)

lemma det3_zero_colsub0 (m : Mat3) (h0 : m.m00 = -m.m02) (h1 : m.m10 = -m.m12)
    (h2 : m.m20 = -m.m22) : det3 m = 0 := by
  rw [det3, h0, h1, h2]
  ring

lemma det3_zero_colsub1 (m : Mat3) (h0 : m.m01 = -m.m02) (h1 : m.m11 = -m.m12)
    (h2 : m.m21 = -m.m22) : det3 m = 0 := by
  rw [det3, h0, h1, h2]
  ring

lemma det3_zero_colsum (m : Mat3) (h0 : m.m00 = -m.m01 - m.m02) (h1 : m.m10 = -m.m11 - m.m12)
    (h2 : m.m20 = -m.m21 - m.m22) : det3 m = 0 := by
  rw [det3, h0, h1, h2]
  ring

/-- In the projective branch, if the homogeneous weight `g*u + h*v + 1` of a
unit-square corner vanishes, then that corner is mapped to the zero vector
and the assembled matrix is singular. -/
lemma projW_ne (x0 y0 x1 y1 x2 y2 x3 y3 g h : ℚ)
    (hgx : g * (x1 - x2) + h * (x3 - x2) = x0 - x1 + x2 - x3)
    (hgy : g * (y1 - y2) + h * (y3 - y2) = y0 - y1 + y2 - y3)
    (hdet : det3 ⟨x1 - x0 + g * x1, x3 - x0 + h * x3, x0,
      y1 - y0 + g * y1, y3 - y0 + h * y3, y0, g, h, 1⟩ ≠ 0)
    (u v : ℚ) (hu : u = 0 ∨ u = 1) (hv : v = 0 ∨ v = 1) :
    g * u + h * v + 1 ≠ 0 := by
  rcases hu with hu | hu <;> rcases hv with hv | hv <;> subst hu <;> subst hv <;> intro hz
  · simp at hz
  · exact hdet (det3_zero_colsub1 _ (by linear_combination x3 * hz)
      (by linear_combination y3 * hz) (by linear_combination hz))
  · exact hdet (det3_zero_colsub0 _ (by linear_combination x1 * hz)
      (by linear_combination y1 * hz) (by linear_combination hz))
  · exact hdet (det3_zero_colsum _ (by linear_combination x2 * hz + hgx)
      (by linear_combination y2 * hz + hgy) (by linear_combination hz))

lemma cramer_gh (x0 y0 x1 y1 x2 y2 x3 y3 : ℚ)
    (hden : (x1 - x2) * (y3 - y2) - (x3 - x2) * (y1 - y2) ≠ 0) :
    (((x0 - x1 + x2 - x3) * (y3 - y2) - (x3 - x2) * (y0 - y1 + y2 - y3)) /
        ((x1 - x2) * (y3 - y2) - (x3 - x2) * (y1 - y2))) * (x1 - x2) +
      (((x1 - x2) * (y0 - y1 + y2 - y3) - (x0 - x1 + x2 - x3) * (y1 - y2)) /
        ((x1 - x2) * (y3 - y2) - (x3 - x2) * (y1 - y2))) * (x3 - x2) =
      x0 - x1 + x2 - x3 ∧
    (((x0 - x1 + x2 - x3) * (y3 - y2) - (x3 - x2) * (y0 - y1 + y2 - y3)) /
        ((x1 - x2) * (y3 - y2) - (x3 - x2) * (y1 - y2))) * (y1 - y2) +
      (((x1 - x2) * (y0 - y1 + y2 - y3) - (x0 - x1 + x2 - x3) * (y1 - y2)) /
        ((x1 - x2) * (y3 - y2) - (x3 - x2) * (y1 - y2))) * (y3 - y2) =
      y0 - y1 + y2 - y3 := by
  constructor <;> (field_simp; ring)

/-- For a non-singular matrix built by `UnitSquareToQuad_`, the homogeneous
weight of every unit-square corner is nonzero. -/
lemma quad_corner_w (x0 y0 x1 y1 x2 y2 x3 y3 : ℚ)
    (hdet : det3 (UnitSquareToQuad_ x0 y0 x1 y1 x2 y2 x3 y3) ≠ 0)
    (u v : ℚ) (hu : u = 0 ∨ u = 1) (hv : v = 0 ∨ v = 1) :
    (UnitSquareToQuad_ x0 y0 x1 y1 x2 y2 x3 y3).m20 * u +
      (UnitSquareToQuad_ x0 y0 x1 y1 x2 y2 x3 y3).m21 * v +
      (UnitSquareToQuad_ x0 y0 x1 y1 x2 y2 x3 y3).m22 ≠ 0 := by
  by_cases hA : |x0 - x1 + x2 - x3| < 1 / 1000000 ∧ |y0 - y1 + y2 - y3| < 1 / 1000000
  · simp only [UnitSquareToQuad_, if_pos hA]
    simp
  · by_cases hB : |(x1 - x2) * (y3 - y2) - (x3 - x2) * (y1 - y2)| < 1 / 100000000
    · simp only [UnitSquareToQuad_, if_neg hA, if_pos hB]
      simp
    · have hden : (x1 - x2) * (y3 - y2) - (x3 - x2) * (y1 - y2) ≠ 0 := by
        intro h0
        rw [h0] at hB
        norm_num at hB
      simp only [UnitSquareToQuad_, if_neg hA, if_neg hB] at hdet ⊢
      exact projW_ne x0 y0 x1 y1 x2 y2 x3 y3 _ _
        (cramer_gh x0 y0 x1 y1 x2 y2 x3 y3 hden).1
        (cramer_gh x0 y0 x1 y1 x2 y2 x3 y3 hden).2 hdet u v hu hv

/-- C2: whenever the forward matrix built by `UnitSquareToQuad_` has
determinant of absolute value at least `1e-8`, `Invert3x3_` succeeds, and
composing the returned inverse (with homogeneous divide) after the forward
mapping recovers each of the four unit-square corners exactly. -/
theorem homography_roundtrip (x0 y0 x1 y1 x2 y2 x3 y3 : ℚ)
    (hdet : 1 / 100000000 ≤ |det3 (UnitSquareToQuad_ x0 y0 x1 y1 x2 y2 x3 y3)|) :
    ∃ N, Invert3x3_ (UnitSquareToQuad_ x0 y0 x1 y1 x2 y2 x3 y3) = some N ∧
      ∀ u v : ℚ, (u = 0 ∨ u = 1) → (v = 0 ∨ v = 1) →
        mapHomog N ((mapHomog (UnitSquareToQuad_ x0 y0 x1 y1 x2 y2 x3 y3) u v).1)
          ((mapHomog (UnitSquareToQuad_ x0 y0 x1 y1 x2 y2 x3 y3) u v).2) = (u, v) := by
  have hne : det3 (UnitSquareToQuad_ x0 y0 x1 y1 x2 y2 x3 y3) ≠ 0 := by
    intro h0
    rw [h0] at hdet
    simp at hdet
    exact absurd hdet (by norm_num)
  refine ⟨adjInv3 (UnitSquareToQuad_ x0 y0 x1 y1 x2 y2 x3 y3),
    by rw [Invert3x3_, if_neg (not_lt.mpr hdet)], fun u v hu hv => ?_⟩
  exact adjInv3_roundtrip _ hne u v (quad_corner_w x0 y0 x1 y1 x2 y2 x3 y3 hne u v hu hv)

/-- Witness for C2 at a concrete non-degenerate (truly projective) quad. -/
theorem homography_roundtrip_witness :
    (1 / 100000000 : ℚ) ≤ |det3 (UnitSquareToQuad_ 0 0 2 0 3 3 0 2)| ∧
    (∃ N, Invert3x3_ (UnitSquareToQuad_ 0 0 2 0 3 3 0 2) = some N ∧
      ∀ u v : ℚ, (u = 0 ∨ u = 1) → (v = 0 ∨ v = 1) →
        mapHomog N ((mapHomog (UnitSquareToQuad_ 0 0 2 0 3 3 0 2) u v).1)
          ((mapHomog (UnitSquareToQuad_ 0 0 2 0 3 3 0 2) u v).2) = (u, v)) := by
  have hd : (1 / 100000000 : ℚ) ≤ |det3 (UnitSquareToQuad_ 0 0 2 0 3 3 0 2)| := by
    norm_num [UnitSquareToQuad_, det3, abs_lt, le_abs]
  exact ⟨hd, homography_roundtrip 0 0 2 0 3 3 0 2 hd⟩

/-- The source-crop region `(srcLeft, srcTop, srcW, srcH)` computed at
PixelCanvas.hpp:1108-1119. -/
structure CropR where
  left : ℤ
  top : ℤ
  cw : ℤ
  ch : ℤ
deriving DecidableEq

/-- The crop computation of `PresentPerspectiveToBits_`
(PixelCanvas.hpp:1108-1119): clamp the requested rectangle into the canvas
and fall back to the full canvas when it is empty or cropping is off. -/
def cropRegion (p : TransformParams) (wc hc : ℤ) : CropR :=
  if p.enableSrcCrop then
    let l := clampZ p.srcRect.left 0 wc
    let t := clampZ p.srcRect.top 0 hc
    let r := clampZ p.srcRect.right 0 wc
    let b := clampZ p.srcRect.bottom 0 hc
    let cw := max 0 (r - l)
    let ch := max 0 (b - t)
    if 0 < cw ∧ 0 < ch then ⟨l, t, cw, ch⟩ else ⟨0, 0, wc, hc⟩
  else ⟨0, 0, wc, hc⟩

/-- The four projected corners TL, TR, BR, BL computed at
PixelCanvas.hpp:1170-1177 from the half-extents of the (possibly cropped)
source rectangle. -/
structure QuadPts where
  x0 : ℚ
  y0 : ℚ
  x1 : ℚ
  y1 : ℚ
  x2 : ℚ
  y2 : ℚ
  x3 : ℚ
  y3 : ℚ
deriving DecidableEq

/-- PixelCanvas.hpp:1170-1177: apply `Apply3D` to the four corners
`(±srcW/2, ±srcH/2, 0)`. -/
def perspQuad (p : TransformParams) (t : Trig) (pe : Bool) (px py : ℚ)
    (outW outH srcW srcH : ℤ) : QuadPts :=
  let hw := (srcW : ℚ) * (1 / 2)
  let hh := (srcH : ℚ) * (1 / 2)
  let a := Apply3D p t pe px py outW outH (-hw) (-hh) 0
  let b := Apply3D p t pe px py outW outH hw (-hh) 0
  let c := Apply3D p t pe px py outW outH hw hh 0
  let d := Apply3D p t pe px py outW outH (-hw) hh 0
  ⟨a.1, a.2, b.1, b.2, c.1, c.2, d.1, d.2⟩

/-- The inner-loop body of `PresentPerspectiveToBits_`
(PixelCanvas.hpp:1188-1217) for destination pixel `(x, y)`: `none` means the
iteration `continue`s (clip reject, near-zero homogeneous weight, or UV
outside the unit square) and the pixel keeps the background fill. -/
def perspPixel (p : TransformParams) (invM : Mat3) (srcBase : ℤ → Pixel32)
    (srcW srcH : ℤ) (x y : ℤ) : Option Pixel32 :=
  if p.enableClip ∧ (x < p.clipRect.left ∨ p.clipRect.right ≤ x ∨
      y < p.clipRect.top ∨ p.clipRect.bottom ≤ y) then none
  else
    let u := invM.m00 * (x : ℚ) + invM.m01 * (y : ℚ) + invM.m02
    let v := invM.m10 * (x : ℚ) + invM.m11 * (y : ℚ) + invM.m12
    let ww := invM.m20 * (x : ℚ) + invM.m21 * (y : ℚ) + invM.m22
    if |ww| < 1 / 100000000 then none
    else
      let uu := u / ww
      let vv := v / ww
      if uu < 0 ∨ 1 < uu ∨ vv < 0 ∨ 1 < vv then none
      else
        let srcXf := uu * ((srcW : ℚ) - 1)
        let srcYf := vv * ((srcH : ℚ) - 1)
        some (if p.fast then
          SampleNearest_ srcBase srcW srcH (itrunc (srcXf + 1 / 2)) (itrunc (srcYf + 1 / 2))
        else SampleBilinear_ srcBase srcW srcH srcXf srcYf)

/-- `PixelCanvas::PresentPerspectiveToBits_` (PixelCanvas.hpp:1103-1219).
The function returns the final contents of `dst`: the whole output region
`[0, outW*outH)` is first filled with the opaque background, then, if the
homography inverts, the bounding-box loop writes each destination cell
`i = y*outW + x` (which decodes uniquely as `x = i % outW`, `y = i / outW`)
at most once with the sampled color when `perspPixel` accepts it.  Cells
outside the output region keep their previous contents `dst0`. -/
def PresentPerspectiveToBits_ (p : TransformParams) (t : Trig) (pixels : ℤ → Pixel32)
    (wc hc : ℤ) (pe : Bool) (px py : ℚ) (outW outH : ℤ) (dst0 : ℤ → Pixel32) :
    ℤ → Pixel32 :=
  let c := cropRegion p wc hc
  let srcBase : ℤ → Pixel32 := fun i => pixels (c.top * wc + c.left + i)
  let q := perspQuad p t pe px py outW outH c.cw c.ch
  let M := UnitSquareToQuad_ q.x0 q.y0 q.x1 q.y1 q.x2 q.y2 q.x3 q.y3
  fun i =>
    if 0 ≤ i ∧ i < outW * outH then
      match Invert3x3_ M with
      | none => bgPixel
      | some invM =>
        let minX := clampZ ⌊min (min q.x0 q.x1) (min q.x2 q.x3)⌋ 0 (outW - 1)
        let maxX := clampZ ⌈max (max q.x0 q.x1) (max q.x2 q.x3)⌉ 0 (outW - 1)
        let minY := clampZ ⌊min (min q.y0 q.y1) (min q.y2 q.y3)⌋ 0 (outH - 1)
        let maxY := clampZ ⌈max (max q.y0 q.y1) (max q.y2 q.y3)⌉ 0 (outH - 1)
        let x := i % outW
        let y := i / outW
        if minY ≤ y ∧ y ≤ maxY ∧ minX ≤ x ∧ x ≤ maxX then
          match perspPixel p invM srcBase c.cw c.ch x y with
          | some col => col
          | none => bgPixel
        else bgPixel
    else dst0 i

/-- In the perspective path with clipping enabled, every in-range destination
pixel rejected by the clip rectangle ends as the opaque background fill, no
matter what the destination held before. -/
lemma persp_clip_bg (p : TransformParams) (t : Trig) (pixels : ℤ → Pixel32)
    (wc hc : ℤ) (pe : Bool) (px py : ℚ) (outW outH : ℤ) (dst0 : ℤ → Pixel32) (x y : ℤ)
    (hclip : p.enableClip = true)
    (hx0 : 0 ≤ x) (hxw : x < outW) (hy0 : 0 ≤ y) (hyh : y < outH)
    (hout : x < p.clipRect.left ∨ p.clipRect.right ≤ x ∨
      y < p.clipRect.top ∨ p.clipRect.bottom ≤ y) :
    PresentPerspectiveToBits_ p t pixels wc hc pe px py outW outH dst0 (y * outW + x)
      = bgPixel := by
  obtain ⟨hi0, hiw⟩ := idx_range outW outH x y hx0 hxw hy0 hyh
  obtain ⟨hmod, hdiv⟩ := decode_idx outW x y hx0 hxw
  have hp : ∀ (srcB : ℤ → Pixel32) (sw sh : ℤ) (invM : Mat3),
      perspPixel p invM srcB sw sh x y = none := fun srcB sw sh invM => by
    rw [perspPixel, if_pos ⟨hclip, hout⟩]
  simp only [PresentPerspectiveToBits_]
  rw [if_pos ⟨hi0, hiw⟩]
  cases hInv : Invert3x3_ (UnitSquareToQuad_
      (perspQuad p t pe px py outW outH (cropRegion p wc hc).cw (cropRegion p wc hc).ch).x0
      (perspQuad p t pe px py outW outH (cropRegion p wc hc).cw (cropRegion p wc hc).ch).y0
      (perspQuad p t pe px py outW outH (cropRegion p wc hc).cw (cropRegion p wc hc).ch).x1
      (perspQuad p t pe px py outW outH (cropRegion p wc hc).cw (cropRegion p wc hc).ch).y1
      (perspQuad p t pe px py outW outH (cropRegion p wc hc).cw (cropRegion p wc hc).ch).x2
      (perspQuad p t pe px py outW outH (cropRegion p wc hc).cw (cropRegion p wc hc).ch).y2
      (perspQuad p t pe px py outW outH (cropRegion p wc hc).cw (cropRegion p wc hc).ch).x3
      (perspQuad p t pe px py outW outH (cropRegion p wc hc).cw (cropRegion p wc hc).ch).y3)
      with
  | none => rfl
  | some invM =>
      rw [hmod, hdiv]
      split_ifs with hbb
      · simp only [hp]
      · rfl

/-- C7 (amended): in the per-pixel perspective rendering path with clipping
enabled, every destination pixel outside the clip rectangle is overwritten
with the opaque black background fill — not left at its pre-transform value.
(The affine paths delegate clipping to the external GDI+ rasterizer, outside
this embedding.) -/
theorem perspective_clip_background (p : TransformParams) (t : Trig)
    (pixels : ℤ → Pixel32) (wc hc : ℤ) (pe : Bool) (px py : ℚ) (outW outH : ℤ)
    (dst0 : ℤ → Pixel32) (x y : ℤ) (hclip : p.enableClip = true)
    (_hne : p.clipRect.left < p.clipRect.right ∧ p.clipRect.top < p.clipRect.bottom)
    (hx0 : 0 ≤ x) (hxw : x < outW) (hy0 : 0 ≤ y) (hyh : y < outH)
    (hout : x < p.clipRect.left ∨ p.clipRect.right ≤ x ∨
      y < p.clipRect.top ∨ p.clipRect.bottom ≤ y) :
    PresentPerspectiveToBits_ p t pixels wc hc pe px py outW outH dst0 (y * outW + x)
      = bgPixel :=
  persp_clip_bg p t pixels wc hc pe px py outW outH dst0 x y hclip hx0 hxw hy0 hyh hout

/-- Identity-like parameters with clipping enabled on `[1,2) × [0,1)`. -/
def clipParams : TransformParams :=
  ⟨1, 0, 0, 0, 0, true, ⟨1, 0, 2, 1⟩, false, ⟨0, 0, 0, 0⟩, true⟩

/-- Counterexample to C7 as stated: destination pixel `(0,0)` lies outside
the enabled non-empty clip rectangle `[1,2) × [0,1)`, its pre-transform value
is `(1,2,3,4)`, yet the perspective path leaves it as the opaque black
background — overwritten, not preserved. -/
theorem perspective_clip_cex :
    clipParams.enableClip = true ∧
    clipParams.clipRect.left < clipParams.clipRect.right ∧
    clipParams.clipRect.top < clipParams.clipRect.bottom ∧
    ((0 : ℤ) < clipParams.clipRect.left) ∧
    PresentPerspectiveToBits_ clipParams idTrig (fun _ => ⟨9, 9, 9, 255⟩) 2 1 false 0 0 2 1
      (fun _ => ⟨1, 2, 3, 4⟩) (0 * 2 + 0) = bgPixel ∧
    ((⟨1, 2, 3, 4⟩ : Pixel32) ≠ bgPixel) := by
  refine ⟨rfl, by decide, by decide, by decide, ?_, by decide⟩
  exact persp_clip_bg clipParams idTrig (fun _ => ⟨9, 9, 9, 255⟩) 2 1 false 0 0 2 1
    (fun _ => ⟨1, 2, 3, 4⟩) 0 0 rfl le_rfl (by decide) le_rfl (by decide)
    (Or.inl (by decide))

/-- Witness for C7 (amended) at a concrete clipped pixel. -/
theorem perspective_clip_background_witness :
    clipParams.enableClip = true ∧
    PresentPerspectiveToBits_ clipParams idTrig constGray 2 1 false 0 0 2 1 constGray
      (0 * 2 + 0) = bgPixel :=
  ⟨rfl, perspective_clip_background clipParams idTrig constGray 2 1 false 0 0 2 1 constGray
    0 0 rfl ⟨by decide, by decide⟩ le_rfl (by decide) le_rfl (by decide) (Or.inl (by decide))⟩

lemma crop_off (p : TransformParams) (wc hc : ℤ) (hc2 : p.enableSrcCrop = false) :
    cropRegion p wc hc = ⟨0, 0, wc, hc⟩ := by
  simp [cropRegion, hc2]

lemma quad_identity (fast : Bool) (w h : ℤ) :
    perspQuad (idParams fast) idTrig false 0 0 w h w h
      = ⟨0, 0, (w : ℚ), 0, (w : ℚ), (h : ℚ), 0, (h : ℚ)⟩ := by
  have hpf : projFactor 1 = 1 := by norm_num [projFactor, abs_lt]
  simp only [perspQuad, Apply3D, rotate3, idParams, idTrig]
  norm_num [hpf, QuadPts.mk.injEq]
  constructor <;> ring

lemma quadMat_identity (w h : ℤ) :
    UnitSquareToQuad_ 0 0 (w : ℚ) 0 (w : ℚ) (h : ℚ) 0 (h : ℚ)
      = ⟨(w : ℚ), 0, 0, 0, (h : ℚ), 0, 0, 0, 1⟩ := by
  have e1 : (0 : ℚ) - (w : ℚ) + (w : ℚ) - 0 = 0 := by ring
  have e2 : (0 : ℚ) - 0 + (h : ℚ) - (h : ℚ) = 0 := by ring
  simp only [UnitSquareToQuad_]
  rw [e1, e2, if_pos (by norm_num)]
  rw [Mat3.mk.injEq]
  norm_num

lemma invMat_identity (w h : ℤ) (hw : 0 < w) (hh : 0 < h) :
    Invert3x3_ (⟨(w : ℚ), 0, 0, 0, (h : ℚ), 0, 0, 0, 1⟩ : Mat3)
      = some ⟨1 / (w : ℚ), 0, 0, 0, 1 / (h : ℚ), 0, 0, 0, 1⟩ := by
  have hwq : (1 : ℚ) ≤ (w : ℚ) := by exact_mod_cast hw
  have hhq : (1 : ℚ) ≤ (h : ℚ) := by exact_mod_cast hh
  have hwne : (w : ℚ) ≠ 0 := by linarith
  have hhne : (h : ℚ) ≠ 0 := by linarith
  have hdet : det3 (⟨(w : ℚ), 0, 0, 0, (h : ℚ), 0, 0, 0, 1⟩ : Mat3) = (w : ℚ) * (h : ℚ) := by
    rw [det3]
    ring
  have hone : (1 : ℚ) ≤ (w : ℚ) * (h : ℚ) := by nlinarith
  rw [Invert3x3_, if_neg (by rw [hdet, abs_of_nonneg (by linarith)]; intro hlt; linarith)]
  rw [Option.some.injEq, adjInv3, hdet, Mat3.mk.injEq]
  refine ⟨?_, ?_, ?_, ?_, ?_, ?_, ?_, ?_, ?_⟩ <;> (field_simp; try ring)

lemma persp_identity_pixel (pixels : ℤ → Pixel32) (w h : ℤ) (fast : Bool)
    (dst0 : ℤ → Pixel32) (x y : ℤ) (hw : 0 < w) (hh : 0 < h)
    (hx0 : 0 ≤ x) (hxw : x < w) (hy0 : 0 ≤ y) (hyh : y < h) :
    PresentPerspectiveToBits_ (idParams fast) idTrig pixels w h false 0 0 w h dst0 (y * w + x)
      = if fast then
          SampleNearest_ pixels w h (itrunc ((x : ℚ) * (((w : ℚ) - 1) / (w : ℚ)) + 1 / 2))
            (itrunc ((y : ℚ) * (((h : ℚ) - 1) / (h : ℚ)) + 1 / 2))
        else
          SampleBilinear_ pixels w h ((x : ℚ) * (((w : ℚ) - 1) / (w : ℚ)))
            ((y : ℚ) * (((h : ℚ) - 1) / (h : ℚ))) := by
  obtain ⟨hi0, hiw⟩ := idx_range w h x y hx0 hxw hy0 hyh
  obtain ⟨hmod, hdiv⟩ := decode_idx w x y hx0 hxw
  have hwq : (1 : ℚ) ≤ (w : ℚ) := by exact_mod_cast hw
  have hhq : (1 : ℚ) ≤ (h : ℚ) := by exact_mod_cast hh
  have hw0 : (0 : ℚ) ≤ (w : ℚ) := by linarith
  have hh0 : (0 : ℚ) ≤ (h : ℚ) := by linarith
  have hwne : (w : ℚ) ≠ 0 := by linarith
  have hhne : (h : ℚ) ≠ 0 := by linarith
  have hxq0 : (0 : ℚ) ≤ (x : ℚ) := by exact_mod_cast hx0
  have hxqw : (x : ℚ) ≤ (w : ℚ) := by
    have : (x : ℚ) < (w : ℚ) := by exact_mod_cast hxw
    linarith
  have hyq0 : (0 : ℚ) ≤ (y : ℚ) := by exact_mod_cast hy0
  have hyqh : (y : ℚ) ≤ (h : ℚ) := by
    have : (y : ℚ) < (h : ℚ) := by exact_mod_cast hyh
    linarith
  have hpp : perspPixel (idParams fast) (⟨1 / (w : ℚ), 0, 0, 0, 1 / (h : ℚ), 0, 0, 0, 1⟩ : Mat3)
      pixels w h x y
      = some (if fast then
          SampleNearest_ pixels w h (itrunc ((x : ℚ) * (((w : ℚ) - 1) / (w : ℚ)) + 1 / 2))
            (itrunc ((y : ℚ) * (((h : ℚ) - 1) / (h : ℚ)) + 1 / 2))
        else
          SampleBilinear_ pixels w h ((x : ℚ) * (((w : ℚ) - 1) / (w : ℚ)))
            ((y : ℚ) * (((h : ℚ) - 1) / (h : ℚ)))) := by
    rw [perspPixel, if_neg (by simp [idParams])]
    dsimp only [idParams]
    have hww : (0 : ℚ) * (x : ℚ) + 0 * (y : ℚ) + 1 = 1 := by ring
    rw [hww, if_neg (by norm_num [abs_lt])]
    have huu : (1 / (w : ℚ) * (x : ℚ) + 0 * (y : ℚ) + 0) / 1 = (x : ℚ) / (w : ℚ) := by
      rw [div_one]
      ring
    have hvv : (0 * (x : ℚ) + 1 / (h : ℚ) * (y : ℚ) + 0) / 1 = (y : ℚ) / (h : ℚ) := by
      rw [div_one]
      ring
    rw [huu, hvv, if_neg]
    · rw [Option.some.injEq,
        show (x : ℚ) / (w : ℚ) * ((w : ℚ) - 1) = (x : ℚ) * (((w : ℚ) - 1) / (w : ℚ)) by ring,
        show (y : ℚ) / (h : ℚ) * ((h : ℚ) - 1) = (y : ℚ) * (((h : ℚ) - 1) / (h : ℚ)) by ring]
    · push_neg
      refine ⟨div_nonneg hxq0 hw0, ?_, div_nonneg hyq0 hh0, ?_⟩
      · rw [div_le_one (by linarith)]
        exact hxqw
      · rw [div_le_one (by linarith)]
        exact hyqh
  have hsb : (fun i : ℤ => pixels (0 * w + 0 + i)) = pixels := by
    funext i
    norm_num
  have hminx : min (min (0 : ℚ) (w : ℚ)) (min (w : ℚ) 0) = 0 := by
    rw [min_eq_left hw0, min_eq_right hw0, min_self]
  have hmaxx : max (max (0 : ℚ) (w : ℚ)) (max (w : ℚ) 0) = (w : ℚ) := by
    rw [max_eq_right hw0, max_eq_left hw0, max_self]
  have hminy : min (min (0 : ℚ) (0 : ℚ)) (min (h : ℚ) (h : ℚ)) = 0 := by
    rw [min_self, min_self, min_eq_left hh0]
  have hmaxy : max (max (0 : ℚ) (0 : ℚ)) (max (h : ℚ) (h : ℚ)) = (h : ℚ) := by
    rw [max_self, max_self, max_eq_right hh0]
  have hclampz : clampZ 0 0 (w - 1) = 0 := by
    rw [clampZ]
    omega
  have hclampw : clampZ w 0 (w - 1) = w - 1 := by
    rw [clampZ]
    omega
  have hclampz2 : clampZ 0 0 (h - 1) = 0 := by
    rw [clampZ]
    omega
  have hclamph : clampZ h 0 (h - 1) = h - 1 := by
    rw [clampZ]
    omega
  simp only [PresentPerspectiveToBits_]
  rw [crop_off (idParams fast) w h rfl]
  dsimp only
  rw [hsb, quad_identity fast w h]
  dsimp only
  rw [quadMat_identity w h, invMat_identity w h hw hh]
  dsimp only
  rw [if_pos ⟨hi0, hiw⟩, hmod, hdiv, hminx, hmaxx, hminy, hmaxy, Int.floor_zero,
    Int.ceil_intCast, Int.ceil_intCast, hclampz, hclampw, hclampz2, hclamph,
    if_pos (by omega : 0 ≤ y ∧ y ≤ h - 1 ∧ 0 ≤ x ∧ x ≤ w - 1), hpp]

/-- C3 (amended): with all rotations, offsets and depth zero, scale 1, zero
perspective strength, no crop, no clip and output size equal to the source
size, the perspective path maps destination pixel `(x, y)` to **scaled**
source coordinates `(x*(w-1)/w, y*(h-1)/h)` — not to `(x, y)` — and samples
there (nearest or bilinear per `fast`); consequently byte-for-byte identity
under nearest sampling holds for all buffers when `width ≤ 2` and
`height ≤ 2`, but not in general. -/
theorem perspective_identity_scaled (pixels : ℤ → Pixel32) (w h : ℤ) (fast : Bool)
    (dst0 : ℤ → Pixel32) (x y : ℤ) (hw : 0 < w) (hh : 0 < h)
    (hx0 : 0 ≤ x) (hxw : x < w) (hy0 : 0 ≤ y) (hyh : y < h) :
    (PresentPerspectiveToBits_ (idParams fast) idTrig pixels w h false 0 0 w h dst0
        (y * w + x)
      = if fast then
          SampleNearest_ pixels w h (itrunc ((x : ℚ) * (((w : ℚ) - 1) / (w : ℚ)) + 1 / 2))
            (itrunc ((y : ℚ) * (((h : ℚ) - 1) / (h : ℚ)) + 1 / 2))
        else
          SampleBilinear_ pixels w h ((x : ℚ) * (((w : ℚ) - 1) / (w : ℚ)))
            ((y : ℚ) * (((h : ℚ) - 1) / (h : ℚ)))) ∧
    (fast = true → w ≤ 2 → h ≤ 2 →
      PresentPerspectiveToBits_ (idParams fast) idTrig pixels w h false 0 0 w h dst0
        (y * w + x) = pixels (y * w + x)) := by
  refine ⟨persp_identity_pixel pixels w h fast dst0 x y hw hh hx0 hxw hy0 hyh,
    fun hf hw2 hh2 => ?_⟩
  rw [persp_identity_pixel pixels w h fast dst0 x y hw hh hx0 hxw hy0 hyh, if_pos hf]
  have hxval : itrunc ((x : ℚ) * (((w : ℚ) - 1) / (w : ℚ)) + 1 / 2) = x := by
    interval_cases w <;> interval_cases x <;> norm_num [itrunc]
  have hyval : itrunc ((y : ℚ) * (((h : ℚ) - 1) / (h : ℚ)) + 1 / 2) = y := by
    interval_cases h <;> interval_cases y <;> norm_num [itrunc]
  rw [hxval, hyval, SampleNearest_]
  have hcx : clampZ x 0 (w - 1) = x := by
    rw [clampZ]
    omega
  have hcy : clampZ y 0 (h - 1) = y := by
    rw [clampZ]
    omega
  rw [hcx, hcy]

/-- A 3×1 buffer: black, black, white (fully opaque). -/
def pix3 : ℤ → Pixel32 := fun i => if i = 2 then ⟨255, 255, 255, 255⟩ else ⟨0, 0, 0, 255⟩

/-- Counterexample to C3 as stated: under the all-identity parameters with
`fast = true` (nearest), the 3×1 buffer is *not* reproduced byte-for-byte —
destination pixel `(2,0)` receives source pixel 1 (black) instead of its own
white value, because the sampling coordinate is `2*(3-1)/3 = 4/3`, not 2. -/
theorem perspective_identity_cex :
    PresentPerspectiveToBits_ (idParams true) idTrig pix3 3 1 false 0 0 3 1
      (fun _ => ⟨0, 0, 0, 0⟩) (0 * 3 + 2) = ⟨0, 0, 0, 255⟩ ∧
    pix3 (0 * 3 + 2) = ⟨255, 255, 255, 255⟩ ∧
    ((⟨0, 0, 0, 255⟩ : Pixel32) ≠ ⟨255, 255, 255, 255⟩) := by
  refine ⟨?_, by decide, by decide⟩
  rw [persp_identity_pixel pix3 3 1 true (fun _ => ⟨0, 0, 0, 0⟩) 2 0 (by norm_num)
    (by norm_num) (by norm_num) (by norm_num) (by norm_num) (by norm_num)]
  rw [if_pos rfl]
  norm_num [SampleNearest_, itrunc, clampZ, pix3, min_def, max_def]

/-- Witness for C3 (amended) at the concrete 3×1 input. -/
theorem perspective_identity_scaled_witness :
    (0 : ℤ) < 3 ∧
    (PresentPerspectiveToBits_ (idParams true) idTrig pix3 3 1 false 0 0 3 1
        (fun _ => ⟨0, 0, 0, 0⟩) (0 * 3 + 2)
      = if true then
          SampleNearest_ pix3 3 1
            (itrunc (((2 : ℤ) : ℚ) * ((((3 : ℤ) : ℚ) - 1) / ((3 : ℤ) : ℚ)) + 1 / 2))
            (itrunc (((0 : ℤ) : ℚ) * ((((1 : ℤ) : ℚ) - 1) / ((1 : ℤ) : ℚ)) + 1 / 2))
        else
          SampleBilinear_ pix3 3 1
            (((2 : ℤ) : ℚ) * ((((3 : ℤ) : ℚ) - 1) / ((3 : ℤ) : ℚ)))
            (((0 : ℤ) : ℚ) * ((((1 : ℤ) : ℚ) - 1) / ((1 : ℤ) : ℚ)))) :=
  ⟨by norm_num,
    (perspective_identity_scaled pix3 3 1 true (fun _ => ⟨0, 0, 0, 0⟩) 2 0 (by norm_num)
      (by norm_num) (by norm_num) (by norm_num) (by norm_num) (by norm_num)).1⟩

end EvilockGDI
